import Mathlib

/-!
Shallow embedding of `src/arxiv_chatbot.py` (an interactive arXiv chatbot).

The embedding models:
* the metadata store: one directory per normalized topic under the root
  directory `papers/`, each holding a `papers_info.json` file mapping paper
  identifiers to records (`search_papers` lines 55-83, `extract_info`
  lines 86-110);
* the tool dispatcher `execute_tool` (lines 160-179);
* the conversation driver `process_query` (lines 185-239) and the
  interactive shell `chat_loop` (lines 242-255).

Modelling conventions:
* Python dicts are association lists in insertion order (`json.load` of an
  object file yields such a dict; `d[k] = v` updates in place or appends).
* The filesystem is `RootState`: `none` when the root directory `papers/`
  does not exist, otherwise the list of topic directories in enumeration
  order (`os.listdir` order is implementation-defined; the model fixes
  insertion order, with newly created directories appended at the end).
  Only directories are modelled; stray plain files under the root are
  skipped by `extract_info`'s `os.path.isdir` check and play no role.
* External services are parameters: the arXiv search client is a function
  from topic and `max_results` to a list of (short id, record) pairs, and
  the LLM is a function from the call index to a response.
* Fallible operations return `Except`; an uncaught Python exception is an
  `.error` value carrying the exception's name.
-/

/-- A paper's stored metadata: the five fields written by `search_papers`
(lines 71-77). `published` is already truncated to a date string. -/
structure PaperRecord where
  title : String
  authors : List String
  summary : String
  pdf_url : String
  published : String
deriving DecidableEq, Repr

/-- A parsed `papers_info.json` object: a Python dict from paper id to
record, as an association list in insertion order. -/
abbrev TopicMap := List (String × PaperRecord)

/-- Python dict lookup `m[k]` / `k in m` (keys are unique in a real dict;
on a list with duplicate keys this returns the first). -/
def dictGet : TopicMap → String → Option PaperRecord
  | [], _ => none
  | p :: m, k => if p.1 = k then some p.2 else dictGet m k

/-- Python dict assignment `m[k] = v`: update the existing entry in place
(keys are unique, so updating the first occurrence is the dict update),
otherwise append at the end (insertion order). -/
def dictSet : TopicMap → String → PaperRecord → TopicMap
  | [], k, v => [(k, v)]
  | p :: m, k, v => if p.1 = k then (k, v) :: m else p :: dictSet m k v

/-- The paper ids of a `TopicMap` (its dict keys). -/
def dictKeys (m : TopicMap) : List String := m.map (fun p => p.1)

/-- The merge loop of `search_papers` (lines 67-77): assign each fetched
record into the loaded dict in fetch order, overwriting same-id
entries. -/
def mergeRecords (m : TopicMap) (records : List (String × PaperRecord)) : TopicMap :=
  records.foldl (fun acc p => dictSet acc p.1 p.2) m

/-- State of one topic directory's `papers_info.json` file. -/
inductive FileState where
  /-- The directory exists but the file is absent (`os.path.isfile` is
  false there; `open` for reading would raise `FileNotFoundError`). -/
  | missing
  /-- The file exists but `json.load` raises `JSONDecodeError` on it. -/
  | unparseable
  /-- The file exists and parses to the given mapping. -/
  | parsed (m : TopicMap)
deriving DecidableEq, Repr

/-- One topic directory under the root directory `papers/`. -/
structure TopicDir where
  name : String
  file : FileState
deriving DecidableEq, Repr

/-- The papers root: `none` when the `papers/` directory itself does not
exist, otherwise its subdirectories in enumeration order. -/
abbrev RootState := Option (List TopicDir)

/-- Look a directory up by name (directory names are unique on a real
filesystem; on a list with duplicates this finds the first). -/
def findDir : List TopicDir → String → Option TopicDir
  | [], _ => none
  | d :: ds, n => if d.name = n then some d else findDir ds n

/-- The `papers_info.json` content of the named topic directory, `none`
when the root or the directory is absent. -/
def getDirFile (store : RootState) (n : String) : Option FileState :=
  (findDir (store.getD []) n).map (fun d => d.file)

/-- The normalization `topic.lower().replace(" ", "_")` (line 55). Python's `str.lower` and
the single-character replace act character by character; `Char.toLower`
agrees with Python on ASCII, which is all the claims exercise. -/
def normalizeTopic (t : String) : String :=
  String.mk (t.data.map (fun c =>
    let c' := c.toLower
    if c' = ' ' then '_' else c'))

/-- The `os.makedirs(path, exist_ok=True)` step of lines 55-56: create
the root directory and the topic directory when absent (the new
directory joins the enumeration at the end); a no-op when the topic
directory already exists. -/
def ensureTopicDirs (store : RootState) (key : String) : List TopicDir :=
  let dirs := store.getD []
  if (findDir dirs key).isSome then dirs
  else dirs ++ [⟨key, FileState.missing⟩]

/-- The persistence half of `search_papers` (lines 55-80): ensure the
topic directory exists (`ensureTopicDirs`), load the existing
`papers_info.json` treating a missing or unparseable file as the empty
dict (lines 60-64), merge the fetched records in fetch order (lines
67-77, new entries overwrite), and write the merged dict back (lines
79-80). -/
def save (topic : String) (records : List (String × PaperRecord))
    (store : RootState) : RootState :=
  let key := normalizeTopic topic
  let dirs := ensureTopicDirs store key
  let existing : TopicMap :=
    match (findDir dirs key).map (fun d => d.file) with
    | some (FileState.parsed m) => m
    | _ => []
  let merged := mergeRecords existing records
  some (dirs.map (fun d => if d.name = key then ⟨key, FileState.parsed merged⟩ else d))

/-- The external arXiv search client: topic and `max_results` to the
ranked results, each a (short id, record) pair (lines 46-53, 68-77 read
the fields off each result). -/
structure Env where
  provider : String → Nat → List (String × PaperRecord)

/-- The tool `search_papers(topic, max_results=5)` (lines 34-83): fetch results,
persist them under the normalized topic, return the list of short ids in
fetch order. The source interleaves collecting `paper_ids` with updating
`papers_info` in one loop (lines 67-77); collecting the ids and folding
the merge are order-equivalent to that loop. -/
def search_papers (env : Env) (topic : String) (max_results : Nat := 5)
    (store : RootState) : List String × RootState :=
  let results := env.provider topic max_results
  (results.map (fun p => p.1), save topic results store)

/-- Outcome of `extract_info`: either the matching record (the source
returns `json.dumps(papers_info[paper_id], indent=2)`, a faithful
serialization of the record, modelled by the record it determines) or the
not-found message string of line 110. -/
inductive ExtractResult where
  | found (r : PaperRecord)
  | notFound (msg : String)
deriving DecidableEq, Repr

/-- The directory scan of `extract_info` (lines 97-109): visit topic
directories in enumeration order; skip a directory whose file is absent
(line 101) or unparseable (lines 107-109, the error is printed and the
scan continues); return the first directory whose dict contains the id. -/
def scanDirs (paper_id : String) : List TopicDir → ExtractResult
  | [] =>
      ExtractResult.notFound
        ("There's no saved information related to paper " ++ paper_id ++ ".")
  | d :: rest =>
      match d.file with
      | FileState.missing => scanDirs paper_id rest
      | FileState.unparseable => scanDirs paper_id rest
      | FileState.parsed m =>
          match dictGet m paper_id with
          | some r => ExtractResult.found r
          | none => scanDirs paper_id rest

/-- The tool `extract_info(paper_id)` (lines 86-110). `os.listdir(PAPER_DIR)` on a
missing root directory raises `FileNotFoundError`, which nothing in the
function catches (the `try` of line 102 only wraps the per-file read), so
a missing root is an `.error`. Otherwise the scan never fails. -/
def extract_info (store : RootState) (paper_id : String) :
    Except String ExtractResult :=
  match store with
  | none => Except.error "FileNotFoundError"
  | some dirs => Except.ok (scanDirs paper_id dirs)

/-- One lowercase hex digit, as produced by Python's `\uXXXX` escapes. -/
def hexDigit (n : Nat) : Char :=
  if n < 10 then Char.ofNat (48 + n) else Char.ofNat (87 + n)

/-- The `\uXXXX` escape of a code unit (four lowercase hex digits). -/
def uEscape (n : Nat) : String :=
  String.mk ['\\', 'u', hexDigit (n / 4096 % 16), hexDigit (n / 256 % 16),
    hexDigit (n / 16 % 16), hexDigit (n % 16)]

/-- How `json.dumps` (default `ensure_ascii=True`) renders one character
inside a string literal: `"` and `\` are backslash-escaped, the control
characters with short forms use them, every other character outside
`0x20`-`0x7e` becomes `\uXXXX` (a surrogate pair beyond the BMP), and the
printable ASCII rest stands for itself. -/
def jsonEscapeChar (c : Char) : String :=
  if c = '"' then "\\\""
  else if c = '\\' then "\\\\"
  else if c = Char.ofNat 8 then "\\b"
  else if c = Char.ofNat 9 then "\\t"
  else if c = Char.ofNat 10 then "\\n"
  else if c = Char.ofNat 12 then "\\f"
  else if c = Char.ofNat 13 then "\\r"
  else if c.toNat < 32 then uEscape c.toNat
  else if c.toNat ≤ 126 then String.mk [c]
  else if c.toNat ≤ 65535 then uEscape c.toNat
  else
    let n := c.toNat - 65536
    uEscape (55296 + n / 1024) ++ uEscape (56320 + n % 1024)

/-- A JSON string literal for `s`, as `json.dumps` renders it. -/
def jsonString (s : String) : String :=
  "\"" ++ String.join (s.data.map jsonEscapeChar) ++ "\""

/-- Rendering of `json.dumps(d, indent=2)` for a flat dict of strings (the shape
`execute_tool`'s dict branch would serialize): `\x7b\x7d` when empty,
otherwise one `"key": "value"` pair per line at indent 2, keys in
insertion order. -/
def jsonDumpsStrDict (kvs : List (String × String)) : String :=
  match kvs with
  | [] => "\x7b\x7d"
  | _ =>
      "\x7b\n  "
        ++ String.intercalate ",\n  "
            (kvs.map (fun p => jsonString p.1 ++ ": " ++ jsonString p.2))
        ++ "\n\x7d"

/-- A Python value as returned by a tool function, covering the shapes
`execute_tool`'s normalization (lines 173-179) distinguishes: `None`, a
list of strings, a dict of strings, a string, or anything else (whose
`str(...)` form the constructor carries). -/
inductive PyValue where
  | pyNone
  | pyList (xs : List String)
  | pyDict (kvs : List (String × String))
  | pyStr (s : String)
  | pyOther (shown : String)
deriving DecidableEq, Repr

/-- The result normalization of `execute_tool` (lines 173-179): `None`
becomes the fixed placeholder sentence, a list is comma-joined, a dict is
pretty-printed with `json.dumps(..., indent=2)`, anything else goes
through `str(...)` (the identity on a string). -/
def normalizeResult : PyValue → String
  | PyValue.pyNone => "The operation completed but didn't return any results."
  | PyValue.pyList xs => String.intercalate ", " xs
  | PyValue.pyDict kvs => jsonDumpsStrDict kvs
  | PyValue.pyStr s => s
  | PyValue.pyOther shown => shown

/-- The raw call `mapping_tool_function[tool_name](**tool_args)` of
line 171: an unknown name raises `KeyError` (lines 155-158 register
exactly `search_papers` and `extract_info`); `search_papers` returns a
list of ids and updates the store; `extract_info` returns a string (the
serialized record or the not-found message) and may raise on a missing
root. Arguments are modelled per tool; `max_results` of `none` means the
argument was omitted and the default 5 applies. -/
inductive ToolArgs where
  | search (topic : String) (max_results : Option Nat)
  | extract (paper_id : String)
deriving DecidableEq, Repr

/-- Rendering of a found record for transport: the source sends
`json.dumps(record_fields, indent=2)`; the model transports the record's
`ExtractResult` normalized through `str(...)`, keeping the record value
abstract (the serialization is injective, so nothing is lost). For the
claims only the not-found string's exact text matters. -/
def extractResultString : ExtractResult → String
  | ExtractResult.found r =>
      jsonDumpsStrDict [("title", r.title),
        ("authors", String.intercalate ", " r.authors),
        ("summary", r.summary), ("pdf_url", r.pdf_url),
        ("published", r.published)]
  | ExtractResult.notFound msg => msg

/-- The lookup-and-call `mapping_tool_function[tool_name](**tool_args)`
of line 171: run the named tool on the current store. The result is the tool's Python return
value (before normalization) plus the updated store; a Python exception
(unknown tool name, argument mismatch, or `extract_info`'s missing-root
`FileNotFoundError`) is an `.error`. -/
def callTool (env : Env) (tool_name : String) (tool_args : ToolArgs)
    (store : RootState) : Except String (PyValue × RootState) :=
  if tool_name = "search_papers" then
    match tool_args with
    | ToolArgs.search topic mr =>
        let (ids, store') := search_papers env topic (mr.getD 5) store
        Except.ok (PyValue.pyList ids, store')
    | _ => Except.error "TypeError"
  else if tool_name = "extract_info" then
    match tool_args with
    | ToolArgs.extract pid =>
        (extract_info store pid).map
          (fun r => (PyValue.pyStr (extractResultString r), store))
    | _ => Except.error "TypeError"
  else Except.error "KeyError"

/-- The dispatcher `execute_tool(tool_name, tool_args)` (lines 160-179): call the
registered tool, then normalize its result to a string for transport. -/
def execute_tool (env : Env) (tool_name : String) (tool_args : ToolArgs)
    (store : RootState) : Except String (String × RootState) :=
  (callTool env tool_name tool_args store).map
    (fun p => (normalizeResult p.1, p.2))

/-- A content block of an LLM response: a text block or a tool-use block
carrying the request id, tool name and structured arguments (lines
202-215 read exactly these fields). -/
inductive ContentBlock where
  | text (s : String)
  | tool_use (id : String) (name : String) (args : ToolArgs)
deriving DecidableEq, Repr

/-- An LLM response is its list of content blocks (`response.content`). -/
abbrev Response := List ContentBlock

/-- One entry of the `messages` list `process_query` maintains: the
user's query (line 189), an assistant turn carrying content blocks
(line 211), or the tool-result user message of lines 219-228 (a
`tool_result` block correlated by `tool_use_id`, with the normalized
string result as payload). -/
inductive Message where
  | user (text : String)
  | assistant (content : List ContentBlock)
  | toolResult (tool_use_id : String) (content : String)
deriving DecidableEq, Repr

/-- The observable state of one `process_query` run: the `messages` list,
the store (threaded through tool executions), the number of
`client.messages.create` calls made so far, the number of completed
`execute_tool` calls, and the text outputs printed so far (the text-block
prints of lines 204 and 238; the `Calling tool ...` trace of line 216 and
the save-confirmation print of line 82 are console diagnostics and are
not recorded). -/
structure DriverState where
  messages : List Message
  store : RootState
  calls : Nat
  toolExecs : Nat
  printed : List String
deriving DecidableEq, Repr

/-- Outcome of a driver run: normal termination, a Python exception
escaping the loop (carrying the state at the raise), or fuel running out
on a loop the source would spin forever (or keep calling the model) in.
Each constructor carries the driver state reached. -/
inductive RunResult where
  | ok (st : DriverState)
  | err (e : String) (st : DriverState)
  | timeout (st : DriverState)
deriving DecidableEq, Repr

/-- The state a `RunResult` carries. -/
def RunResult.state : RunResult → DriverState
  | RunResult.ok st => st
  | RunResult.err _ st => st
  | RunResult.timeout st => st

/-- The LLM transport: call number `k` (0-based) returns `llm k`. -/
abbrev LLM := Nat → Response

/-- The `for content in response.content` body (lines 202-239), iterating
over the block list snapshot the loop was entered with. Arguments mirror
the Python locals: `ac` is `assistant_content`, `resp` the current value
of the `response` variable (reassigned at line 230, and consulted by the
length test of line 206 and the termination test of lines 237-239), and
`flag` the `process_query` boolean. A text block is printed and buffered,
and ends the loop when the current response has exactly one block (lines
203-207). A tool-use block is buffered, the assistant turn (as buffered
so far) is appended to `messages` — the source appends the live
`assistant_content` list object, so on transport each copy shows the
content at send time; the model snapshots at append time, which agrees on
every property stated below — then the tool runs, the tool-result message
is appended, the model is called again, and a single-text-block new
response prints its text and ends the loop (lines 209-239). -/
def processBlocks (env : Env) (llm : LLM) :
    List ContentBlock → List ContentBlock → DriverState → Response → Bool →
    Except (String × DriverState) (DriverState × Response × Bool)
  | [], _, st, resp, flag => Except.ok (st, resp, flag)
  | ContentBlock.text s :: rest, ac, st, resp, flag =>
      let st := { st with printed := st.printed ++ [s] }
      let ac := ac ++ [ContentBlock.text s]
      let flag := if resp.length = 1 then false else flag
      processBlocks env llm rest ac st resp flag
  | ContentBlock.tool_use id name args :: rest, ac, st, _resp, flag =>
      let ac := ac ++ [ContentBlock.tool_use id name args]
      let st := { st with messages := st.messages ++ [Message.assistant ac] }
      match execute_tool env name args st.store with
      | Except.error e => Except.error (e, st)
      | Except.ok (result, store') =>
          let st := { st with
            store := store'
            toolExecs := st.toolExecs + 1
            messages := st.messages ++ [Message.toolResult id result] }
          let resp := llm st.calls
          let st := { st with calls := st.calls + 1 }
          match resp with
          | [ContentBlock.text s] =>
              let st := { st with printed := st.printed ++ [s] }
              processBlocks env llm rest ac st resp false
          | _ => processBlocks env llm rest ac st resp flag

/-- The `while process_query` loop (lines 198-239): test the flag, reset
`assistant_content`, run the block iteration, repeat. `fuel` bounds the
number of iterations; a run that still wants to iterate with no fuel left
is a `timeout`. -/
def driverLoop (env : Env) (llm : LLM) :
    Nat → DriverState → Response → Bool → RunResult
  | _, st, _, false => RunResult.ok st
  | 0, st, _, true => RunResult.timeout st
  | fuel + 1, st, resp, true =>
      match processBlocks env llm resp [] st resp true with
      | Except.error (e, st') => RunResult.err e st'
      | Except.ok (st', resp', flag') => driverLoop env llm fuel st' resp' flag'

/-- The message list `process_query` starts from (line 189): a fresh list
holding only this query's user message — no state from earlier queries. -/
def initialMessages (query : String) : List Message :=
  [Message.user query]

/-- The driver `process_query(query)` (lines 185-239): build the fresh message list,
make the first model call, then run the response loop. -/
def process_query (env : Env) (llm : LLM) (fuel : Nat) (query : String)
    (store : RootState) : RunResult :=
  let st : DriverState :=
    { messages := initialMessages query, store := store, calls := 1,
      toolExecs := 0, printed := [] }
  driverLoop env llm fuel st (llm 0) true

/-- ASCII whitespace, as stripped by Python `str.strip()`. -/
def isSpaceChar (c : Char) : Bool :=
  c = ' ' || c = Char.ofNat 9 || c = Char.ofNat 10 || c = Char.ofNat 11 ||
    c = Char.ofNat 12 || c = Char.ofNat 13

/-- Python `str.strip()` restricted to what the shell needs: trim ASCII
whitespace from both ends (Python also strips other Unicode whitespace;
the claims only exercise ASCII). -/
def pyStrip (s : String) : String :=
  String.mk (((s.data.dropWhile isSpaceChar).reverse.dropWhile isSpaceChar).reverse)

/-- Python `str.lower()` on ASCII (see `normalizeTopic`). -/
def pyLower (s : String) : String := String.mk (s.data.map Char.toLower)

/-- The message histories the session's successive `process_query` calls
begin with, one per user query line, in order (`chat_loop`, lines
247-253): each line is stripped, a case-insensitive `quit` ends the
session, and every other line starts `process_query` — which builds its
history from scratch at line 189. -/
def chat_loop_histories : List String → List (List Message)
  | [] => []
  | q :: rest =>
      let q := pyStrip q
      if pyLower q = "quit" then []
      else initialMessages q :: chat_loop_histories rest

/-- The mapping the reading half of `save` starts from (lines 60-64): the
parsed `papers_info.json` of the topic directory, or the empty dict when
the root, the directory or the file is absent or the file is
unparseable. -/
def loadTopicMap (store : RootState) (key : String) : TopicMap :=
  match getDirFile store key with
  | some (FileState.parsed m) => m
  | _ => []

/-- Whether a topic file, in its on-disk state, contains the given paper
id (an absent or unparseable file contains nothing — `extract_info` skips
it). -/
def fileHasId : FileState → String → Bool
  | FileState.parsed m, id => (dictGet m id).isSome
  | _, _ => false

/-- Whether a content block is a tool-use block carrying the given
request id. -/
def hasToolUseFor (id : String) (blocks : List ContentBlock) : Bool :=
  blocks.any (fun b =>
    match b with
    | ContentBlock.tool_use i _ _ => i = id
    | _ => false)

/-- Number of assistant-turn messages in a history. -/
def countAssistant (msgs : List Message) : Nat :=
  msgs.countP (fun m =>
    match m with
    | Message.assistant _ => true
    | _ => false)

/-- Number of tool-result messages in a history. -/
def countToolResults (msgs : List Message) : Nat :=
  msgs.countP (fun m =>
    match m with
    | Message.toolResult _ _ => true
    | _ => false)

/-- A history is correlated when every tool-result message is preceded by
an assistant-turn message carrying a tool-use block with the same request
identifier. -/
def correlated (msgs : List Message) : Prop :=
  ∀ (i : Nat) (id c : String),
    msgs[i]? = some (Message.toolResult id c) →
    ∃ (j : Nat) (ac : List ContentBlock), j < i ∧
      msgs[j]? = some (Message.assistant ac) ∧ hasToolUseFor id ac = true

theorem dictGet_dictSet_self (m : TopicMap) (k : String) (v : PaperRecord) :
    dictGet (dictSet m k v) k = some v := by
  induction m with
  | nil => simp [dictSet, dictGet]
  | cons p m ih =>
      by_cases h : p.1 = k
      · simp [dictSet, dictGet, h]
      · simp [dictSet, dictGet, h, ih]

theorem dictGet_dictSet_ne (m : TopicMap) (k k' : String) (v : PaperRecord)
    (h : k' ≠ k) : dictGet (dictSet m k v) k' = dictGet m k' := by
  induction m with
  | nil => simp [dictSet, dictGet, Ne.symm h]
  | cons p m ih =>
      by_cases hp : p.1 = k
      · simp [dictSet, dictGet, hp, Ne.symm h]
      · simp [dictSet, dictGet, hp, ih]

theorem dictGet_mergeRecords_of_not_mem (R : List (String × PaperRecord))
    (m : TopicMap) (id : String) (h : id ∉ R.map Prod.fst) :
    dictGet (mergeRecords m R) id = dictGet m id := by
  induction R generalizing m with
  | nil => rfl
  | cons p R ih =>
      simp only [List.map_cons, List.mem_cons, not_or] at h
      simp only [mergeRecords, List.foldl_cons]
      rw [show (List.foldl (fun acc q => dictSet acc q.1 q.2) (dictSet m p.1 p.2) R)
            = mergeRecords (dictSet m p.1 p.2) R from rfl]
      rw [ih _ h.2, dictGet_dictSet_ne _ _ _ _ h.1]

theorem dictGet_mergeRecords_of_get (R : List (String × PaperRecord))
    (m : TopicMap) (id : String) (rec : PaperRecord)
    (hnd : (R.map Prod.fst).Nodup) (hg : dictGet R id = some rec) :
    dictGet (mergeRecords m R) id = some rec := by
  induction R generalizing m with
  | nil => simp [dictGet] at hg
  | cons p R ih =>
      simp only [List.map_cons, List.nodup_cons] at hnd
      simp only [mergeRecords, List.foldl_cons]
      rw [show (List.foldl (fun acc q => dictSet acc q.1 q.2) (dictSet m p.1 p.2) R)
            = mergeRecords (dictSet m p.1 p.2) R from rfl]
      by_cases hp : p.1 = id
      · rw [dictGet, if_pos hp] at hg
        have hid : id ∉ R.map Prod.fst := hp ▸ hnd.1
        rw [dictGet_mergeRecords_of_not_mem R _ id hid]
        rw [← hp, dictGet_dictSet_self]
        exact hg
      · rw [dictGet, if_neg hp] at hg
        exact ih _ hnd.2 hg

theorem findDir_append (ds es : List TopicDir) (n : String) :
    findDir (ds ++ es) n =
      match findDir ds n with
      | some d => some d
      | none => findDir es n := by
  induction ds with
  | nil => simp [findDir]
  | cons d ds ih =>
      by_cases h : d.name = n
      · simp [findDir, h]
      · simp [findDir, h, ih]

theorem findDir_isSome_of_mem (ds : List TopicDir) (n : String)
    (h : ∃ d ∈ ds, d.name = n) : (findDir ds n).isSome := by
  induction ds with
  | nil => simp at h
  | cons d ds ih =>
      by_cases hd : d.name = n
      · simp [findDir, hd]
      · rw [findDir, if_neg hd]
        rcases h with ⟨d', hd', hn⟩
        rcases List.mem_cons.mp hd' with rfl | hmem
        · exact absurd hn hd
        · exact ih ⟨d', hmem, hn⟩

theorem findDir_some (ds : List TopicDir) (n : String) (d : TopicDir)
    (h : findDir ds n = some d) : d ∈ ds ∧ d.name = n := by
  induction ds with
  | nil => simp [findDir] at h
  | cons d' ds ih =>
      by_cases hd : d'.name = n
      · rw [findDir, if_pos hd] at h
        cases h
        exact ⟨List.mem_cons_self _ _, hd⟩
      · rw [findDir, if_neg hd] at h
        rcases ih h with ⟨hm, hn⟩
        exact ⟨List.mem_cons_of_mem _ hm, hn⟩

theorem findDir_writeback_ne (ds : List TopicDir) (key n : String)
    (merged : TopicMap) (h : n ≠ key) :
    findDir (ds.map (fun d =>
        if d.name = key then ⟨key, FileState.parsed merged⟩ else d)) n
      = findDir ds n := by
  induction ds with
  | nil => rfl
  | cons d ds ih =>
      by_cases hd : d.name = key
      · simp only [List.map_cons, if_pos hd, findDir]
        rw [if_neg (fun hh => h hh.symm), if_neg (hd ▸ fun hh => h hh.symm), ih]
      · simp only [List.map_cons, if_neg hd, findDir, ih]

theorem findDir_writeback_key (ds : List TopicDir) (key : String)
    (merged : TopicMap) (h : (findDir ds key).isSome) :
    findDir (ds.map (fun d =>
        if d.name = key then ⟨key, FileState.parsed merged⟩ else d)) key
      = some ⟨key, FileState.parsed merged⟩ := by
  induction ds with
  | nil => simp [findDir] at h
  | cons d ds ih =>
      by_cases hd : d.name = key
      · simp [List.map_cons, if_pos hd, findDir]
      · rw [findDir, if_neg hd] at h
        simp only [List.map_cons, if_neg hd, findDir, if_neg hd, ih h]

theorem findDir_ensure_isSome (store : RootState) (key : String) :
    (findDir (ensureTopicDirs store key) key).isSome := by
  unfold ensureTopicDirs
  by_cases hs : (findDir (store.getD []) key).isSome
  · simp [hs]
  · simp only [hs, if_false, Bool.false_eq_true]
    rw [findDir_append]
    rcases ho : findDir (store.getD []) key with _ | d
    · simp [findDir]
    · simp [ho] at hs

theorem loadTopicMap_ensure (store : RootState) (key : String) :
    (match (findDir (ensureTopicDirs store key) key).map (fun d => d.file) with
      | some (FileState.parsed m) => m
      | _ => []) = loadTopicMap store key := by
  unfold ensureTopicDirs loadTopicMap getDirFile
  rcases ho : findDir (store.getD []) key with _ | d
  · rw [if_neg (by simp [ho]), findDir_append, ho]
    simp [findDir]
  · rw [if_pos (by simp [ho]), ho]

theorem save_eq (topic : String) (records : List (String × PaperRecord))
    (store : RootState) :
    save topic records store =
      some ((ensureTopicDirs store (normalizeTopic topic)).map (fun d =>
        if d.name = normalizeTopic topic then
          ⟨normalizeTopic topic,
            FileState.parsed (mergeRecords (loadTopicMap store (normalizeTopic topic)) records)⟩
        else d)) := by
  simp only [save]
  rw [loadTopicMap_ensure]

theorem getDirFile_save_key (topic : String)
    (records : List (String × PaperRecord)) (store : RootState) :
    getDirFile (save topic records store) (normalizeTopic topic)
      = some (FileState.parsed
          (mergeRecords (loadTopicMap store (normalizeTopic topic)) records)) := by
  rw [save_eq]
  unfold getDirFile
  rw [Option.getD_some, findDir_writeback_key _ _ _ (findDir_ensure_isSome store _)]
  rfl

theorem getDirFile_save_ne (topic : String)
    (records : List (String × PaperRecord)) (store : RootState) (n : String)
    (h : n ≠ normalizeTopic topic) :
    getDirFile (save topic records store) n = getDirFile store n := by
  rw [save_eq]
  unfold getDirFile
  rw [Option.getD_some, findDir_writeback_ne _ _ _ _ h]
  unfold ensureTopicDirs
  by_cases hs : (findDir (store.getD []) (normalizeTopic topic)).isSome
  · rw [if_pos hs]
  · rw [if_neg hs, findDir_append]
    rcases ho : findDir (store.getD []) n with _ | d
    · simp [ho, findDir, Ne.symm h]
    · simp [ho]

theorem save_clean_preserved (topic : String)
    (records : List (String × PaperRecord)) (store : RootState)
    (P : FileState → Prop)
    (h : ∀ d ∈ store.getD [], d.name ≠ normalizeTopic topic → P d.file) :
    ∀ d ∈ (save topic records store).getD [],
      d.name ≠ normalizeTopic topic → P d.file := by
  rw [save_eq]
  intro d' hd' hn
  rw [Option.getD_some] at hd'
  rcases List.mem_map.mp hd' with ⟨d, hd, rfl⟩
  by_cases hdk : d.name = normalizeTopic topic
  · rw [if_pos hdk] at hn ⊢
    exact absurd rfl hn
  · rw [if_neg hdk] at hn ⊢
    unfold ensureTopicDirs at hd
    by_cases hs : (findDir (store.getD []) (normalizeTopic topic)).isSome
    · rw [if_pos hs] at hd
      exact h d hd hn
    · rw [if_neg hs] at hd
      rcases List.mem_append.mp hd with hmem | hmem
      · exact h d hmem hn
      · simp only [List.mem_singleton] at hmem
        rw [hmem] at hdk
        exact absurd rfl hdk

theorem scanDirs_found (ds : List TopicDir) (key id : String)
    (merged : TopicMap) (rec : PaperRecord)
    (hclean : ∀ d ∈ ds, d.name ≠ key → fileHasId d.file id = false)
    (hkeyfile : ∀ d ∈ ds, d.name = key → d.file = FileState.parsed merged)
    (hex : ∃ d ∈ ds, d.name = key)
    (hget : dictGet merged id = some rec) :
    scanDirs id ds = ExtractResult.found rec := by
  induction ds with
  | nil => simp at hex
  | cons d ds ih =>
      by_cases hd : d.name = key
      · have hf := hkeyfile d (List.mem_cons_self _ _) hd
        simp [scanDirs, hf, hget]
      · have hc := hclean d (List.mem_cons_self _ _) hd
        have htail : scanDirs id ds = ExtractResult.found rec := by
          apply ih
          · exact fun d' hd' => hclean d' (List.mem_cons_of_mem _ hd')
          · exact fun d' hd' => hkeyfile d' (List.mem_cons_of_mem _ hd')
          · rcases hex with ⟨d', hd', hn⟩
            rcases List.mem_cons.mp hd' with rfl | hmem
            · exact absurd hn hd
            · exact ⟨d', hmem, hn⟩
        rcases hfile : d.file with _ | _ | m
        · simp [scanDirs, hfile, htail]
        · simp [scanDirs, hfile, htail]
        · rcases hg : dictGet m id with _ | r
          · simp [scanDirs, hfile, hg, htail]
          · simp [fileHasId, hfile, hg] at hc

theorem scanDirs_notFound (ds : List TopicDir) (id : String)
    (hclean : ∀ d ∈ ds, fileHasId d.file id = false) :
    scanDirs id ds = ExtractResult.notFound
      ("There's no saved information related to paper " ++ id ++ ".") := by
  induction ds with
  | nil => rfl
  | cons d ds ih =>
      have hc := hclean d (List.mem_cons_self _ _)
      have htail := ih (fun d' hd' => hclean d' (List.mem_cons_of_mem _ hd'))
      rcases hfile : d.file with _ | _ | m
      · simp [scanDirs, hfile, htail]
      · simp [scanDirs, hfile, htail]
      · rcases hg : dictGet m id with _ | r
        · simp [scanDirs, hfile, hg, htail]
        · simp [fileHasId, hfile, hg] at hc

theorem save_keyfile (topic : String) (records : List (String × PaperRecord))
    (store : RootState) :
    ∀ d ∈ (save topic records store).getD [],
      d.name = normalizeTopic topic →
      d.file = FileState.parsed
        (mergeRecords (loadTopicMap store (normalizeTopic topic)) records) := by
  rw [save_eq]
  intro d' hd' hn
  rw [Option.getD_some] at hd'
  rcases List.mem_map.mp hd' with ⟨d, _, rfl⟩
  by_cases hdk : d.name = normalizeTopic topic
  · rw [if_pos hdk]
  · rw [if_neg hdk] at hn ⊢
    exact absurd hn hdk

theorem save_key_exists (topic : String) (records : List (String × PaperRecord))
    (store : RootState) :
    ∃ d ∈ (save topic records store).getD [], d.name = normalizeTopic topic := by
  rw [save_eq, Option.getD_some]
  rcases Option.isSome_iff_exists.mp (findDir_ensure_isSome store (normalizeTopic topic))
    with ⟨d, hd⟩
  rcases findDir_some _ _ _ hd with ⟨hmem, hname⟩
  refine ⟨if d.name = normalizeTopic topic then
    ⟨normalizeTopic topic, FileState.parsed
      (mergeRecords (loadTopicMap store (normalizeTopic topic)) records)⟩ else d, ?_, ?_⟩
  · exact List.mem_map_of_mem _ hmem
  · rw [if_pos hname]

theorem extract_info_save_merged (topic : String)
    (records : List (String × PaperRecord)) (store : RootState)
    (id : String) (rec : PaperRecord)
    (hget : dictGet (mergeRecords (loadTopicMap store (normalizeTopic topic))
        records) id = some rec)
    (hclean : ∀ d ∈ store.getD [], d.name ≠ normalizeTopic topic →
      fileHasId d.file id = false) :
    extract_info (save topic records store) id
      = Except.ok (ExtractResult.found rec) := by
  have h1 := save_clean_preserved topic records store
    (fun f => fileHasId f id = false) hclean
  have h2 := save_keyfile topic records store
  have h3 := save_key_exists topic records store
  rcases hsv : save topic records store with _ | dirs
  · rw [save_eq] at hsv
    cases hsv
  · rw [hsv] at h1 h2 h3
    rw [Option.getD_some] at h1 h2 h3
    rw [extract_info,
      scanDirs_found dirs (normalizeTopic topic) id _ rec h1 h2 h3 hget]

theorem extract_info_save (topic : String)
    (records : List (String × PaperRecord)) (store : RootState)
    (id : String) (rec : PaperRecord)
    (hnd : (records.map Prod.fst).Nodup)
    (hg : dictGet records id = some rec)
    (hclean : ∀ d ∈ store.getD [], d.name ≠ normalizeTopic topic →
      fileHasId d.file id = false) :
    extract_info (save topic records store) id
      = Except.ok (ExtractResult.found rec) :=
  extract_info_save_merged topic records store id rec
    (dictGet_mergeRecords_of_get records _ id rec hnd hg) hclean

theorem loadTopicMap_save_key (topic : String)
    (records : List (String × PaperRecord)) (store : RootState) :
    loadTopicMap (save topic records store) (normalizeTopic topic)
      = mergeRecords (loadTopicMap store (normalizeTopic topic)) records := by
  unfold loadTopicMap
  rw [getDirFile_save_key]
  rfl

/-- C1 (amended): after `search_papers` persists a result mapping `R`
under topic `T`, `extract_info` on any id of `R` returns that id's record
with all five fields unchanged, provided the id does not already occur in
another topic's store (otherwise the scan may return the other store's
record first, see the counterexample). -/
theorem c1_roundtrip : ∀ (store : RootState) (T : String)
    (R : List (String × PaperRecord)) (mr : Nat) (id : String)
    (rec : PaperRecord),
    (R.map Prod.fst).Nodup →
    dictGet R id = some rec →
    (∀ d ∈ store.getD [], d.name ≠ normalizeTopic T →
      fileHasId d.file id = false) →
    extract_info (search_papers ⟨fun _ _ => R⟩ T mr store).2 id
      = Except.ok (ExtractResult.found rec) := by
  intro store T R mr id rec hnd hg hclean
  exact extract_info_save T R store id rec hnd hg hclean

/-- C1 counterexample: the round-trip as claimed fails when another
topic's store already holds the same id with a different record —
`extract_info` returns the first match in enumeration order, here the old
record from `topic_a`, not the one just saved under `Topic B`. -/
theorem c1_counterexample :
    extract_info
      (search_papers
        ⟨fun _ _ => [("0001.00001",
          ⟨"New title", ["A"], "S2", "U2", "2024-02-02"⟩)]⟩
        "Topic B" 5
        (some [⟨"topic_a", FileState.parsed [("0001.00001",
          ⟨"Old title", ["A"], "S1", "U1", "2024-01-01"⟩)]⟩])).2
      "0001.00001"
      = Except.ok (ExtractResult.found
          ⟨"Old title", ["A"], "S1", "U1", "2024-01-01"⟩)
    ∧ (⟨"Old title", ["A"], "S1", "U1", "2024-01-01"⟩ : PaperRecord)
        ≠ ⟨"New title", ["A"], "S2", "U2", "2024-02-02"⟩ :=
  ⟨rfl, by decide⟩

/-- C1 witness: the amended round-trip at a concrete input (empty root,
one saved record, looked up again). -/
theorem c1_roundtrip_witness :
    extract_info (search_papers
      ⟨fun _ _ => [("0001.00001", ⟨"T", ["A"], "S", "U", "2024-01-01"⟩)]⟩
      "ai" 5 none).2 "0001.00001"
      = Except.ok (ExtractResult.found ⟨"T", ["A"], "S", "U", "2024-01-01"⟩) :=
  c1_roundtrip none "ai" _ 5 _ _ (by decide) (by decide) (by simp)

/-- C2: saving topic `T` twice, the topic store afterwards maps every id
of `R2` to its `R2` record (overwriting), and every id of `R1` not in
`R2` still to its `R1` record (non-overlapping entries survive). The
`Nodup` hypotheses say the result sets are mappings (unique ids). -/
theorem c2_overwrite_merge : ∀ (store : RootState) (T : String)
    (R1 R2 : List (String × PaperRecord)),
    (R1.map Prod.fst).Nodup → (R2.map Prod.fst).Nodup →
    (∀ id rec, dictGet R2 id = some rec →
      dictGet (loadTopicMap (save T R2 (save T R1 store))
        (normalizeTopic T)) id = some rec)
    ∧ (∀ id rec, dictGet R1 id = some rec → id ∉ R2.map Prod.fst →
      dictGet (loadTopicMap (save T R2 (save T R1 store))
        (normalizeTopic T)) id = some rec) := by
  intro store T R1 R2 h1 h2
  constructor
  · intro id rec hget
    rw [loadTopicMap_save_key]
    exact dictGet_mergeRecords_of_get R2 _ id rec h2 hget
  · intro id rec hget hnot
    rw [loadTopicMap_save_key, dictGet_mergeRecords_of_not_mem R2 _ id hnot,
      loadTopicMap_save_key]
    exact dictGet_mergeRecords_of_get R1 _ id rec h1 hget

/-- C2 witness: a concrete double save; id `b` is overwritten by the
second save, id `a` survives from the first. -/
theorem c2_overwrite_merge_witness :
    dictGet (loadTopicMap
      (save "ml" [("b", ⟨"B2", ["Y"], "S2", "U2", "2024-02-02"⟩)]
        (save "ml" [("a", ⟨"A1", ["X"], "S1", "U1", "2024-01-01"⟩),
          ("b", ⟨"B1", ["Y"], "S1", "U1", "2024-01-01"⟩)] none))
      (normalizeTopic "ml")) "b"
      = some ⟨"B2", ["Y"], "S2", "U2", "2024-02-02"⟩
    ∧ dictGet (loadTopicMap
      (save "ml" [("b", ⟨"B2", ["Y"], "S2", "U2", "2024-02-02"⟩)]
        (save "ml" [("a", ⟨"A1", ["X"], "S1", "U1", "2024-01-01"⟩),
          ("b", ⟨"B1", ["Y"], "S1", "U1", "2024-01-01"⟩)] none))
      (normalizeTopic "ml")) "a"
      = some ⟨"A1", ["X"], "S1", "U1", "2024-01-01"⟩ := by
  refine ⟨(c2_overwrite_merge none "ml" _ _ (by decide) (by decide)).1 "b" _ (by decide),
    (c2_overwrite_merge none "ml" _ _ (by decide) (by decide)).2 "a" _ (by decide) (by decide)⟩

/-- C3 (amended): when the root directory exists, `extract_info` on an
id present in no store — including stores whose file is missing or
unparseable — returns the literal not-found message and does not throw.
(The unamended claim also covered a missing root; see the
counterexample.) -/
theorem c3_never_throws : ∀ (dirs : List TopicDir) (pid : String),
    (∀ d ∈ dirs, fileHasId d.file pid = false) →
    extract_info (some dirs) pid = Except.ok (ExtractResult.notFound
      ("There's no saved information related to paper " ++ pid ++ ".")) := by
  intro dirs pid h
  rw [extract_info, scanDirs_notFound dirs pid h]

/-- C3 counterexample: with the `papers` root directory absent,
`extract_info` raises `FileNotFoundError` (the uncaught
`os.listdir(PAPER_DIR)` of line 97), contradicting the claim's "never
throws ... including when the root directory ... is missing". -/
theorem c3_counterexample :
    extract_info none "9999.99999" = Except.error "FileNotFoundError" := rfl

/-- C3 witness: the amended claim at a concrete state with an
unparseable store, a store lacking the file, and a parsed store without
the id. -/
theorem c3_never_throws_witness :
    extract_info (some [⟨"a", FileState.unparseable⟩, ⟨"b", FileState.missing⟩,
      ⟨"c", FileState.parsed [("0001.00001", ⟨"T", ["A"], "S", "U", "2024-01-01"⟩)]⟩])
      "9999.99999"
      = Except.ok (ExtractResult.notFound
        "There's no saved information related to paper 9999.99999.") :=
  c3_never_throws _ "9999.99999" (by decide)

/-- C9: dispatching `search_papers` returns the comma-joined ids found
by the search, writes the merged mapping into the one store file of the
normalized topic (creating root and directory if needed), and leaves
every other topic's store file untouched. -/
theorem c9_search_dispatch : ∀ (env : Env) (topic : String) (mr : Option Nat)
    (store : RootState),
    execute_tool env "search_papers" (ToolArgs.search topic mr) store
      = Except.ok
          (String.intercalate ", " ((env.provider topic (mr.getD 5)).map Prod.fst),
           save topic (env.provider topic (mr.getD 5)) store)
    ∧ getDirFile (save topic (env.provider topic (mr.getD 5)) store)
        (normalizeTopic topic)
        = some (FileState.parsed (mergeRecords
            (loadTopicMap store (normalizeTopic topic))
            (env.provider topic (mr.getD 5))))
    ∧ ∀ n, n ≠ normalizeTopic topic →
        getDirFile (save topic (env.provider topic (mr.getD 5)) store) n
          = getDirFile store n := by
  intro env topic mr store
  exact ⟨rfl, getDirFile_save_key _ _ _, fun n hn => getDirFile_save_ne _ _ _ _ hn⟩

/-- C9 witness: a concrete dispatch returning two comma-joined ids and
leaving an unrelated topic's (absent) file absent. -/
theorem c9_search_dispatch_witness :
    execute_tool ⟨fun _ _ => [("0001.00001", ⟨"T", ["A"], "S", "U", "2024-01-01"⟩),
        ("0002.00002", ⟨"T2", ["B"], "S2", "U2", "2024-02-02"⟩)]⟩
      "search_papers" (ToolArgs.search "deep learning" none) none
      = Except.ok ("0001.00001, 0002.00002",
          save "deep learning" [("0001.00001", ⟨"T", ["A"], "S", "U", "2024-01-01"⟩),
            ("0002.00002", ⟨"T2", ["B"], "S2", "U2", "2024-02-02"⟩)] none)
    ∧ getDirFile (save "deep learning" [("0001.00001", ⟨"T", ["A"], "S", "U", "2024-01-01"⟩),
        ("0002.00002", ⟨"T2", ["B"], "S2", "U2", "2024-02-02"⟩)] none) "other_topic"
        = getDirFile (none : RootState) "other_topic" := by
  refine ⟨?_, ?_⟩
  · have h := (c9_search_dispatch ⟨fun _ _ => [("0001.00001", ⟨"T", ["A"], "S", "U", "2024-01-01"⟩),
        ("0002.00002", ⟨"T2", ["B"], "S2", "U2", "2024-02-02"⟩)]⟩ "deep learning" none none).1
    exact h
  · exact (c9_search_dispatch ⟨fun _ _ => [("0001.00001", ⟨"T", ["A"], "S", "U", "2024-01-01"⟩),
        ("0002.00002", ⟨"T2", ["B"], "S2", "U2", "2024-02-02"⟩)]⟩ "deep learning" none none).2.2
      "other_topic" (by decide)

/-- C10: topic normalization is not injective ("Quantum Computing" and
"quantum_computing" collide); topics with equal normalizations target the
same store file (`save` depends on the topic only through its
normalization), and records saved under either spelling land in the one
shared store and are found by `extract_info` (under C1's no-shadowing
proviso for the lookup). -/
theorem c10_normalization_aliasing :
    (normalizeTopic "Quantum Computing" = normalizeTopic "quantum_computing"
      ∧ "Quantum Computing" ≠ "quantum_computing")
    ∧ (∀ t1 t2 : String, normalizeTopic t1 = normalizeTopic t2 →
        ∀ records store, save t1 records store = save t2 records store)
    ∧ (∀ (t1 t2 : String) (store : RootState)
        (R1 R2 : List (String × PaperRecord)) (id : String) (rec : PaperRecord),
        normalizeTopic t1 = normalizeTopic t2 →
        (R1.map Prod.fst).Nodup → (R2.map Prod.fst).Nodup →
        (∀ d ∈ store.getD [], d.name ≠ normalizeTopic t1 →
          fileHasId d.file id = false) →
        (dictGet R2 id = some rec ∨
          (id ∉ R2.map Prod.fst ∧ dictGet R1 id = some rec)) →
        extract_info (save t2 R2 (save t1 R1 store)) id
          = Except.ok (ExtractResult.found rec)) := by
  refine ⟨⟨by decide, by decide⟩, ?_, ?_⟩
  · intro t1 t2 h records store
    simp only [save, ensureTopicDirs, h]
  · intro t1 t2 store R1 R2 id rec h h1 h2 hclean hcase
    apply extract_info_save_merged
    · rw [← h, loadTopicMap_save_key]
      rcases hcase with hget | ⟨hnot, hget⟩
      · exact dictGet_mergeRecords_of_get R2 _ id rec h2 hget
      · rw [dictGet_mergeRecords_of_not_mem R2 _ id hnot]
        exact dictGet_mergeRecords_of_get R1 _ id rec h1 hget
    · rw [← h]
      exact save_clean_preserved t1 R1 store (fun f => fileHasId f id = false) hclean

/-- C10 witness: saving under "Quantum Computing" then
"quantum_computing" merges into one store; the record saved under the
first spelling is found after the second save, and both spellings write
identically. -/
theorem c10_normalization_aliasing_witness :
    extract_info (save "quantum_computing"
        [("0002.00002", ⟨"B", ["Y"], "SB", "UB", "2024-02-02"⟩)]
      (save "Quantum Computing"
        [("0001.00001", ⟨"A", ["X"], "SA", "UA", "2024-01-01"⟩)] none))
      "0001.00001"
      = Except.ok (ExtractResult.found ⟨"A", ["X"], "SA", "UA", "2024-01-01"⟩)
    ∧ save "Quantum Computing"
        [("0001.00001", ⟨"A", ["X"], "SA", "UA", "2024-01-01"⟩)] none
      = save "quantum_computing"
        [("0001.00001", ⟨"A", ["X"], "SA", "UA", "2024-01-01"⟩)] none :=
  ⟨(c10_normalization_aliasing.2.2) "Quantum Computing" "quantum_computing" none
      _ _ "0001.00001" _ (by decide) (by decide) (by decide) (by simp)
      (Or.inr ⟨by decide, by decide⟩),
    (c10_normalization_aliasing.2.1) "Quantum Computing" "quantum_computing"
      (by decide) _ none⟩

/-- C8 counterexample: a registered tool returning an empty list
(`search_papers` with no results) is normalized to the empty string — the
comma-join of nothing — not to the placeholder sentence, contradicting
the claim's "an empty or absent result becomes the fixed placeholder
sentence". -/
theorem c8_counterexample :
    execute_tool ⟨fun _ _ => []⟩ "search_papers"
      (ToolArgs.search "quantum computing" none) none
      = Except.ok ("", some [⟨"quantum_computing", FileState.parsed []⟩])
    ∧ ("" : String) ≠ "The operation completed but didn't return any results." :=
  ⟨rfl, by decide⟩

/-- C8 (amended): `execute_tool` normalizes the raw tool result so that
an absent (`None`) result becomes the placeholder sentence, a sequence is
comma-joined (the empty sequence therefore becomes the empty string, not
the placeholder), a mapping becomes its pretty-printed serialization, and
anything else its textual form; every successful dispatch returns exactly
the normalization of the raw result. -/
theorem c8_normalization :
    (normalizeResult PyValue.pyNone
      = "The operation completed but didn't return any results.")
    ∧ (normalizeResult (PyValue.pyList []) = "")
    ∧ (∀ xs, normalizeResult (PyValue.pyList xs) = String.intercalate ", " xs)
    ∧ (∀ kvs, normalizeResult (PyValue.pyDict kvs) = jsonDumpsStrDict kvs)
    ∧ (∀ s, normalizeResult (PyValue.pyStr s) = s)
    ∧ (∀ shown, normalizeResult (PyValue.pyOther shown) = shown)
    ∧ (∀ env name args store r store',
        execute_tool env name args store = Except.ok (r, store') →
        ∃ v, callTool env name args store = Except.ok (v, store')
          ∧ r = normalizeResult v) := by
  refine ⟨rfl, rfl, fun xs => rfl, fun kvs => rfl, fun s => rfl, fun s => rfl, ?_⟩
  intro env name args store r store' h
  unfold execute_tool at h
  rcases hc : callTool env name args store with e | ⟨v, st⟩
  · rw [hc] at h
    cases h
  · rw [hc] at h
    rcases h with ⟨⟩
    exact ⟨v, rfl, rfl⟩

/-- C8 witness: the dispatch-normalization link at a concrete
`extract_info` dispatch. -/
theorem c8_normalization_witness :
    ∃ v, callTool ⟨fun _ _ => []⟩ "extract_info" (ToolArgs.extract "9999.99999")
        (some []) = Except.ok (v, some [])
      ∧ "There's no saved information related to paper 9999.99999."
          = normalizeResult v :=
  (c8_normalization.2.2.2.2.2.2) ⟨fun _ _ => []⟩ "extract_info"
    (ToolArgs.extract "9999.99999") (some [])
    "There's no saved information related to paper 9999.99999." (some []) rfl


/-- C4 counterexample: in a session with queries "hello" then "world",
the history `process_query` starts from for the second query is just
`[user "world"]` — the first query's messages are not carried over, so
history does not persist across queries. -/
theorem c4_counterexample :
    chat_loop_histories ["hello", "world"]
      = [[Message.user "hello"], [Message.user "world"]]
    ∧ Message.user "hello" ∉ [Message.user "world"] :=
  ⟨rfl, by decide⟩

/-- C4 (amended): message history is per query, not per session — every
history a session's `process_query` call starts from is exactly the
one-element list holding that query's user message (line 189 builds it
from scratch; `messages` is a local discarded when the call returns). -/
theorem c4_fresh_history : ∀ (queries : List String) (h : List Message),
    h ∈ chat_loop_histories queries → ∃ q, h = [Message.user q] := by
  intro queries
  induction queries with
  | nil =>
      intro h hh
      simp [chat_loop_histories] at hh
  | cons q rest ih =>
      intro h hh
      simp only [chat_loop_histories] at hh
      by_cases hq : pyLower (pyStrip q) = "quit"
      · rw [if_pos hq] at hh
        simp at hh
      · rw [if_neg hq] at hh
        rcases List.mem_cons.mp hh with rfl | hmem
        · exact ⟨pyStrip q, rfl⟩
        · exact ih h hmem

/-- C4 witness: the amended statement applied to the concrete session
["hello", "world"] at its second history. -/
theorem c4_fresh_history_witness :
    ∃ q, [Message.user "world"] = [Message.user q] :=
  c4_fresh_history ["hello", "world"] [Message.user "world"] (by decide)

/-- C5 counterexample: a run whose first response is the single text
block "hello" ends with history `[user "hi"]` — the text is printed and
the loop ends, but no assistant message is appended to the history,
contradicting the claim's "appends it to history". -/
theorem c5_counterexample :
    process_query ⟨fun _ _ => []⟩ (fun _ => [ContentBlock.text "hello"]) 1 "hi" none
      = RunResult.ok ⟨[Message.user "hi"], none, 1, 0, ["hello"]⟩
    ∧ countAssistant [Message.user "hi"] = 0 :=
  ⟨rfl, rfl⟩

/-- C5 (amended): when the response that opens the loop is exactly one
text block, the driver prints that text and terminates with no further
model call and no tool execution; the text is buffered in
`assistant_content` but never appended to the message history (only the
tool-use branch appends to history). -/
theorem c5_single_text : ∀ (env : Env) (llm : LLM) (q : String)
    (store : RootState) (s : String) (fuel : Nat),
    llm 0 = [ContentBlock.text s] → 1 ≤ fuel →
    process_query env llm fuel q store
      = RunResult.ok ⟨[Message.user q], store, 1, 0, [s]⟩ := by
  intro env llm q store s fuel h hf
  obtain ⟨fuel, rfl⟩ : ∃ f, fuel = f + 1 := ⟨fuel - 1, by omega⟩
  unfold process_query
  rw [h]
  simp [driverLoop, processBlocks, initialMessages]

/-- C5 witness: the amended single-text-response behavior at a concrete
run. -/
theorem c5_single_text_witness :
    process_query ⟨fun _ _ => []⟩ (fun _ => [ContentBlock.text "hello"]) 7 "hi" none
      = RunResult.ok ⟨[Message.user "hi"], none, 1, 0, ["hello"]⟩ :=
  c5_single_text ⟨fun _ _ => []⟩ (fun _ => [ContentBlock.text "hello"]) "hi" none
    "hello" 7 rfl (by omega)

theorem processBlocks_text_run (env : Env) (llm : LLM) :
    ∀ (texts : List String) (rest : List ContentBlock) (ac : List ContentBlock)
      (st : DriverState) (resp : Response) (flag : Bool),
    processBlocks env llm (texts.map ContentBlock.text ++ rest) ac st resp flag
      = processBlocks env llm rest (ac ++ texts.map ContentBlock.text)
          { st with printed := st.printed ++ texts } resp
          (texts.foldl (fun f _ => if resp.length = 1 then false else f) flag) := by
  intro texts
  induction texts with
  | nil =>
      intro rest ac st resp flag
      simp
  | cons t texts ih =>
      intro rest ac st resp flag
      simp only [List.map_cons, List.cons_append, processBlocks, List.append_eq]
      rw [ih]
      simp [List.append_assoc, List.foldl_cons]

theorem processBlocks_texts_ok (env : Env) (llm : LLM) (texts : List String)
    (ac : List ContentBlock) (st : DriverState) (resp : Response) (flag : Bool) :
    processBlocks env llm (texts.map ContentBlock.text) ac st resp flag
      = Except.ok ({ st with printed := st.printed ++ texts }, resp,
          texts.foldl (fun f _ => if resp.length = 1 then false else f) flag) := by
  rw [← List.append_nil (texts.map ContentBlock.text), processBlocks_text_run]
  rfl

theorem foldl_flag_false (resp : Response) (texts : List String) :
    texts.foldl (fun f (_ : String) => if resp.length = 1 then false else f) false
      = false := by
  induction texts with
  | nil => rfl
  | cons t texts ih =>
      rw [List.foldl_cons]
      rw [ite_self]
      exact ih

/-- C7: a run whose first response carries exactly one tool-invocation
block (amid any text blocks) and whose second response is a single text
block performs exactly one tool execution, appends exactly one
tool-result message, issues exactly two model calls, and terminates —
the final state lists the full history, call count 2 and tool count 1. -/
theorem c7_one_tool_round : ∀ (env : Env) (llm : LLM) (q : String)
    (store : RootState) (pre post : List String) (id name : String)
    (args : ToolArgs) (s r : String) (store' : RootState) (fuel : Nat),
    llm 0 = pre.map ContentBlock.text
      ++ ContentBlock.tool_use id name args :: post.map ContentBlock.text →
    llm 1 = [ContentBlock.text s] →
    execute_tool env name args store = Except.ok (r, store') →
    1 ≤ fuel →
    process_query env llm fuel q store
      = RunResult.ok ⟨[Message.user q,
          Message.assistant (pre.map ContentBlock.text
            ++ [ContentBlock.tool_use id name args]),
          Message.toolResult id r],
        store', 2, 1, pre ++ s :: post⟩ := by
  intro env llm q store pre post id name args s r store' fuel h0 h1 hex hf
  obtain ⟨fuel, rfl⟩ : ∃ f, fuel = f + 1 := ⟨fuel - 1, by omega⟩
  unfold process_query
  rw [h0]
  simp only [driverLoop]
  rw [processBlocks_text_run]
  simp only [processBlocks, initialMessages]
  rw [hex]
  simp only [h1]
  rw [processBlocks_texts_ok]
  simp only [foldl_flag_false]
  simp only [driverLoop]
  simp [List.append_assoc]

/-- C7 witness: the one-tool-round shape at a concrete run (a lookup of
an unsaved paper followed by a text answer). -/
theorem c7_one_tool_round_witness :
    process_query ⟨fun _ _ => []⟩
      (fun k => if k = 0 then
          [ContentBlock.tool_use "t1" "extract_info" (ToolArgs.extract "x")]
        else [ContentBlock.text "done"]) 5 "q" (some [])
      = RunResult.ok ⟨[Message.user "q",
          Message.assistant [ContentBlock.tool_use "t1" "extract_info"
            (ToolArgs.extract "x")],
          Message.toolResult "t1" "There's no saved information related to paper x."],
        some [], 2, 1, ["done"]⟩ :=
  c7_one_tool_round ⟨fun _ _ => []⟩ _ "q" (some []) [] [] "t1" "extract_info"
    (ToolArgs.extract "x") "done"
    "There's no saved information related to paper x." (some []) 5 rfl rfl rfl
    (by omega)

theorem correlated_nil : correlated [] := by
  intro i id c h
  simp at h

theorem correlated_singleton_user (q : String) :
    correlated [Message.user q] := by
  intro i id c h
  rcases i with _ | i
  · simp at h
  · simp at h

theorem correlated_append_assistant (msgs : List Message)
    (ac : List ContentBlock) (h : correlated msgs) :
    correlated (msgs ++ [Message.assistant ac]) := by
  intro i id c hi
  by_cases hlt : i < msgs.length
  · rw [List.getElem?_append_left hlt] at hi
    rcases h i id c hi with ⟨j, ac', hj, hjm, hja⟩
    exact ⟨j, ac', hj,
      by rw [List.getElem?_append_left (lt_trans hj hlt)]; exact hjm, hja⟩
  · rw [List.getElem?_append_right (Nat.le_of_not_lt hlt)] at hi
    rcases hd : i - msgs.length with _ | k
    · rw [hd] at hi
      simp at hi
    · rw [hd] at hi
      simp at hi

theorem correlated_append_toolResult (msgs : List Message)
    (id r : String) (h : correlated msgs)
    (hw : ∃ (j : Nat) (ac : List ContentBlock),
      msgs[j]? = some (Message.assistant ac) ∧ hasToolUseFor id ac = true) :
    correlated (msgs ++ [Message.toolResult id r]) := by
  intro i id' c hi
  by_cases hlt : i < msgs.length
  · rw [List.getElem?_append_left hlt] at hi
    rcases h i id' c hi with ⟨j, ac', hj, hjm, hja⟩
    exact ⟨j, ac', hj,
      by rw [List.getElem?_append_left (lt_trans hj hlt)]; exact hjm, hja⟩
  · rw [List.getElem?_append_right (Nat.le_of_not_lt hlt)] at hi
    rcases hd : i - msgs.length with _ | k
    · rw [hd] at hi
      simp at hi
      rcases hw with ⟨j, ac, hjm, hja⟩
      have hjlt : j < msgs.length := by
        by_contra hc
        rw [List.getElem?_eq_none (Nat.le_of_not_lt hc)] at hjm
        cases hjm
      refine ⟨j, ac, by omega, ?_, ?_⟩
      · rw [List.getElem?_append_left hjlt]
        exact hjm
      · rw [← hi.1]
        exact hja
    · rw [hd] at hi
      simp at hi

theorem processBlocks_inv (env : Env) (llm : LLM) :
    ∀ (blocks : List ContentBlock) (ac : List ContentBlock) (st : DriverState)
      (resp : Response) (flag : Bool),
    correlated st.messages →
    countAssistant st.messages = st.toolExecs →
    countToolResults st.messages = st.toolExecs →
    (match processBlocks env llm blocks ac st resp flag with
     | Except.ok (st', _, _) =>
         correlated st'.messages
         ∧ countAssistant st'.messages = st'.toolExecs
         ∧ countToolResults st'.messages = st'.toolExecs
     | Except.error (_, st') => correlated st'.messages) := by
  intro blocks
  induction blocks with
  | nil =>
      intro ac st resp flag h1 h2 h3
      exact ⟨h1, h2, h3⟩
  | cons b rest ih =>
      intro ac st resp flag h1 h2 h3
      cases b with
      | text s =>
          simp only [processBlocks]
          exact ih _ _ _ _ h1 h2 h3
      | tool_use id name args =>
          simp only [processBlocks]
          rcases hexec : execute_tool env name args st.store with e | ⟨r, store2⟩
          · simp only [hexec]
            exact correlated_append_assistant _ _ h1
          · simp only [hexec]
            have hc' : correlated ((st.messages
                ++ [Message.assistant (ac ++ [ContentBlock.tool_use id name args])])
                ++ [Message.toolResult id r]) := by
              apply correlated_append_toolResult _ _ _
                (correlated_append_assistant _ _ h1)
              refine ⟨st.messages.length, ac ++ [ContentBlock.tool_use id name args],
                List.getElem?_concat_length _ _, ?_⟩
              simp [hasToolUseFor]
            have ha' : countAssistant ((st.messages
                ++ [Message.assistant (ac ++ [ContentBlock.tool_use id name args])])
                ++ [Message.toolResult id r]) = st.toolExecs + 1 := by
              simp only [countAssistant, List.countP_append] at h2 ⊢
              simp [List.countP_cons]
              omega
            have ht' : countToolResults ((st.messages
                ++ [Message.assistant (ac ++ [ContentBlock.tool_use id name args])])
                ++ [Message.toolResult id r]) = st.toolExecs + 1 := by
              simp only [countToolResults, List.countP_append] at h3 ⊢
              simp [List.countP_cons]
              omega
            rcases hllm : llm st.calls with _ | ⟨b2, rest2⟩
            · simp only [hllm]
              exact ih _ _ _ _ hc' ha' ht'
            · cases b2 with
              | text s2 =>
                  cases rest2 with
                  | nil =>
                      simp only [hllm]
                      exact ih _ _ _ _ hc' ha' ht'
                  | cons b3 rest3 =>
                      simp only [hllm]
                      exact ih _ _ _ _ hc' ha' ht'
              | tool_use id2 name2 args2 =>
                  simp only [hllm]
                  exact ih _ _ _ _ hc' ha' ht'

theorem driverLoop_inv (env : Env) (llm : LLM) :
    ∀ (fuel : Nat) (st : DriverState) (resp : Response) (flag : Bool),
    correlated st.messages →
    countAssistant st.messages = st.toolExecs →
    countToolResults st.messages = st.toolExecs →
    (match driverLoop env llm fuel st resp flag with
     | RunResult.ok st' =>
         correlated st'.messages
         ∧ countAssistant st'.messages = st'.toolExecs
         ∧ countToolResults st'.messages = st'.toolExecs
     | RunResult.err _ st' => correlated st'.messages
     | RunResult.timeout st' =>
         correlated st'.messages
         ∧ countAssistant st'.messages = st'.toolExecs
         ∧ countToolResults st'.messages = st'.toolExecs) := by
  intro fuel
  induction fuel with
  | zero =>
      intro st resp flag h1 h2 h3
      cases flag
      · exact ⟨h1, h2, h3⟩
      · exact ⟨h1, h2, h3⟩
  | succ fuel ih =>
      intro st resp flag h1 h2 h3
      cases flag
      · exact ⟨h1, h2, h3⟩
      · have hpb := processBlocks_inv env llm resp [] st resp true h1 h2 h3
        simp only [driverLoop]
        rcases hr : processBlocks env llm resp [] st resp true
          with ⟨e, st'⟩ | ⟨st', resp', flag'⟩
        · rw [hr] at hpb
          simp only [hr]
          exact hpb
        · rw [hr] at hpb
          simp only [hr]
          exact ih st' resp' flag' hpb.1 hpb.2.1 hpb.2.2

/-- C6 counterexample: on a response carrying two tool-use blocks, the
assistant turn is appended once per tool-use block — the final history
holds two assistant messages, not exactly one, contradicting the claim's
"appended to history exactly once". -/
theorem c6_counterexample :
    countAssistant (RunResult.state (process_query ⟨fun _ _ => []⟩
      (fun k => if k = 0 then
          [ContentBlock.tool_use "t1" "extract_info" (ToolArgs.extract "x"),
           ContentBlock.tool_use "t2" "extract_info" (ToolArgs.extract "y")]
        else [ContentBlock.text "done"]) 3 "q" (some []))).messages = 2 := by
  rfl

/-- C6 (amended): in every run, every tool-result message in the history
is preceded by an assistant message carrying a tool-use block with the
same request id; and in every completed run the history holds exactly one
assistant message and exactly one tool-result message per tool execution
(the assistant turn is appended once per tool-use block — immediately
before that block's execution — not once per response). -/
theorem c6_invariant : ∀ (env : Env) (llm : LLM) (fuel : Nat) (q : String)
    (store : RootState),
    correlated (RunResult.state (process_query env llm fuel q store)).messages
    ∧ (∀ st, process_query env llm fuel q store = RunResult.ok st →
        countAssistant st.messages = st.toolExecs
        ∧ countToolResults st.messages = st.toolExecs) := by
  intro env llm fuel q store
  have h := driverLoop_inv env llm fuel
    ⟨initialMessages q, store, 1, 0, []⟩ (llm 0) true
    (correlated_singleton_user q) rfl rfl
  unfold process_query
  rcases hr : driverLoop env llm fuel
      ⟨initialMessages q, store, 1, 0, []⟩ (llm 0) true
    with st1 | ⟨e, st2⟩ | st3
  · rw [hr] at h
    refine ⟨h.1, ?_⟩
    intro st hst
    cases hst
    exact ⟨h.2.1, h.2.2⟩
  · rw [hr] at h
    exact ⟨h, fun st hst => by cases hst⟩
  · rw [hr] at h
    exact ⟨h.1, fun st hst => by cases hst⟩

/-- C6 witness: the amended invariant at a concrete completed run. -/
theorem c6_invariant_witness :
    correlated (RunResult.state (process_query ⟨fun _ _ => []⟩
      (fun _ => [ContentBlock.text "fine"]) 1 "q" none)).messages
    ∧ countAssistant ((⟨[Message.user "q"], none, 1, 0,
        ["fine"]⟩ : DriverState).messages)
      = (⟨[Message.user "q"], none, 1, 0, ["fine"]⟩ : DriverState).toolExecs :=
  ⟨(c6_invariant ⟨fun _ _ => []⟩ (fun _ => [ContentBlock.text "fine"]) 1 "q" none).1,
   ((c6_invariant ⟨fun _ _ => []⟩ (fun _ => [ContentBlock.text "fine"]) 1 "q" none).2
      ⟨[Message.user "q"], none, 1, 0, ["fine"]⟩ rfl).1⟩
